import Mathlib

/-!
Shallow embedding of `src/fix_config.py`, a utility that disables
problematic columns in a JSON configuration document, together with
proofs of the specification's claims about it.

JSON values (the result of Python's `json.load`) are modelled by the
inductive type `Json`; Python dicts become association lists in
insertion order.  The in-memory transformation performed by
`fix_config` between its read and its write is modelled by the pure
function `fix_config : Json → Option (Json × Nat)`; `none` models a
Python runtime error (e.g. `AttributeError` when `.get` is called on a
non-dict), in which case the write never happens.  The file-level
read/parse/mutate/write cycle is modelled by `fix_config_run`,
parameterised over the JSON parser and serialiser.
-/

/-- A JSON value as produced by Python's `json.load`.  Numbers are kept
abstract as integers: no claim inspects numeric payloads. -/
inductive Json where
  | null : Json
  | bool : Bool → Json
  | num : Int → Json
  | str : String → Json
  | arr : List Json → Json
  | obj : List (String × Json) → Json

/-- Python equality test of a JSON value against a string constant:
only a string value can compare equal to a string. -/
def jstrEq (v : Json) (s : String) : Bool :=
  match v with
  | .str t => t == s
  | _ => false

/-- Python `d.get(k)` on a dict: first binding of the key, if any. -/
def jget? (fs : List (String × Json)) (k : String) : Option Json :=
  (fs.find? (fun p => p.1 == k)).map (fun p => p.2)

/-- Python `d[k] = v` on a dict: replace the value in place when the key
is present (position preserved), otherwise append the new binding. -/
def setField (fs : List (String × Json)) (k : String) (v : Json) :
    List (String × Json) :=
  if fs.any (fun p => p.1 == k) then
    fs.map (fun p => if p.1 == k then (p.1, v) else p)
  else fs ++ [(k, v)]

/-- Python iteration over a value: a list yields its elements, a dict its
keys, a string its characters; other values are not iterable (`none`
models the `TypeError`). -/
def elemsOf : Json → Option (List Json)
  | .arr xs => some xs
  | .obj fs => some (fs.map (fun p => Json.str p.1))
  | .str s => some (s.data.map (fun c => Json.str (String.singleton c)))
  | _ => none

/-- The static exclusion map `PROBLEMATIC_COLUMNS` of `fix_config.py`:
table name to the list of column names to disable. -/
def PROBLEMATIC_COLUMNS : List (String × List String) :=
  [("Production.WorkOrderRouting", ["LocationID"]),
   ("Production.ProductModel", ["CatalogDescription"]),
   ("Purchasing.ProductVendor", ["LastReceiptCost", "LastReceiptDate"]),
   ("Person.StateProvince", ["StateProvinceID", "IsOnlyStateProvinceFlag"]),
   ("Sales.SalesOrderDetail", ["SalesOrderDetailID"]),
   ("Production.ProductInventory", ["LocationID"]),
   ("Production.ProductDescription", ["ProductDescriptionID"]),
   ("Production.ProductModelProductDescriptionCulture", ["ProductDescriptionID"]),
   ("Purchasing.PurchaseOrderDetail", ["PurchaseOrderDetailID"]),
   ("Sales.SalesPerson", ["SalesLastYear"]),
   ("Sales.SalesTerritory", ["SalesLastYear", "CostLastYear"]),
   ("Purchasing.ShipMethod", ["ShipMethodID", "ShipBase", "ShipRate"]),
   ("Purchasing.PurchaseOrderHeader", ["ShipMethodID", "ShipDate"]),
   ("Sales.SalesOrderHeader", ["ShipDate", "ShipMethodID"])]

/-- Python `table_name in PROBLEMATIC_COLUMNS` followed by the lookup:
the exclusion list of a table-name value, if it is a key of the map. -/
def lookupExclusion (v : Json) : Option (List String) :=
  (PROBLEMATIC_COLUMNS.find? (fun p => jstrEq v p.1)).map (fun p => p.2)

/-- Python `col_name in problematic_cols`: membership of a value in a
list of string constants. -/
def memCols (v : Json) (cols : List String) : Bool :=
  cols.any (fun c => jstrEq v c)

/-- The body of the inner `for column in table.get("Columns", [])` loop
for one column value: a matched column gets `Enabled` set to `False`
and counts 1; anything that is not a dict makes `.get` fail. -/
def fixColumn (excl : List String) (col : Json) : Option (Json × Nat) :=
  match col with
  | .obj fs =>
      let cname := (jget? fs "ColumnName").getD (.str "")
      if memCols cname excl then
        some (.obj (setField fs "Enabled" (.bool false)), 1)
      else
        some (.obj fs, 0)
  | _ => none

/-- The inner loop over a sequence of column values, accumulating the
fixed columns and the count. -/
def fixColumns (excl : List String) : List Json → Option (List Json × Nat)
  | [] => some ([], 0)
  | c :: cs =>
      match fixColumn excl c, fixColumns excl cs with
      | some (c', k), some (cs', m) => some (c' :: cs', k + m)
      | _, _ => none

/-- The body of the outer `for table in config.get("Tables", [])` loop
for one table value: look up `TableName` in the exclusion map (absent
name defaults to `""`), and when present fix the columns; in-place
mutation of the `Columns` list is modelled by replacing the field. -/
def fixTable (t : Json) : Option (Json × Nat) :=
  match t with
  | .obj fs =>
      let tname := (jget? fs "TableName").getD (.str "")
      match lookupExclusion tname with
      | none => some (.obj fs, 0)
      | some excl =>
          match jget? fs "Columns" with
          | none => some (.obj fs, 0)
          | some (.arr cs) =>
              match fixColumns excl cs with
              | some (cs', m) => some (.obj (setField fs "Columns" (.arr cs')), m)
              | none => none
          | some other =>
              match elemsOf other with
              | some es =>
                  match fixColumns excl es with
                  | some (_, m) => some (.obj fs, m)
                  | none => none
              | none => none
  | _ => none

/-- The outer loop over a sequence of table values. -/
def fixTables : List Json → Option (List Json × Nat)
  | [] => some ([], 0)
  | t :: ts =>
      match fixTable t, fixTables ts with
      | some (t', k), some (ts', m) => some (t' :: ts', k + m)
      | _, _ => none

/-- The in-memory transformation of `fix_config` between its read and
its write: mutate the parsed document and return it with the count.
`none` models a Python runtime error, which aborts before the write. -/
def fix_config (doc : Json) : Option (Json × Nat) :=
  match doc with
  | .obj fs =>
      match jget? fs "Tables" with
      | none => some (.obj fs, 0)
      | some (.arr ts) =>
          match fixTables ts with
          | some (ts', n) => some (.obj (setField fs "Tables" (.arr ts')), n)
          | none => none
      | some other =>
          match elemsOf other with
          | some es =>
              match fixTables es with
              | some (_, n) => some (.obj fs, n)
              | none => none
          | none => none
  | _ => none

/-- Outcome of one invocation of `fix_config` at the file level.  Each
constructor records the on-disk content at the target path when the
invocation ends (`none` = no file). -/
inductive RunResult where
  | ok : String → Nat → RunResult
  | ioError : Option String → RunResult
  | parseError : String → RunResult
  | runtimeError : String → RunResult
deriving DecidableEq

/-- The file-level read/parse/mutate/write cycle of `fix_config`,
parameterised over the JSON parser (`none` = `json.JSONDecodeError`)
and serialiser.  A missing file raises `IOError` at `open`, a parse
failure raises before any write, a runtime error in the loops also
aborts before the write; only a fully successful run rewrites the
file. -/
def fix_config_run (parse : String → Option Json) (ser : Json → String)
    (disk : Option String) : RunResult :=
  match disk with
  | none => .ioError none
  | some s =>
      match parse s with
      | none => .parseError s
      | some doc =>
          match fix_config doc with
          | none => .runtimeError s
          | some (doc', n) => .ok (ser doc') n

/-- Fields of an object value (other values have none). -/
def objFields : Json → List (String × Json)
  | .obj fs => fs
  | _ => []

/-- The list of table entries of a document: the `Tables` field when it
is an array, otherwise the empty list. -/
def tablesOf (doc : Json) : List Json :=
  match jget? (objFields doc) "Tables" with
  | some (.arr ts) => ts
  | _ => []

/-- The list of column entries of a table entry: the `Columns` field
when it is an array, otherwise the empty list. -/
def columnsOf (t : Json) : List Json :=
  match jget? (objFields t) "Columns" with
  | some (.arr cs) => cs
  | _ => []

/-- The `TableName` of a table entry, defaulting to `""` as in
`table.get("TableName", "")`. -/
def tableNameOf (t : Json) : Json :=
  (jget? (objFields t) "TableName").getD (.str "")

/-- The `ColumnName` of a column entry, defaulting to `""`. -/
def columnNameOf (c : Json) : Json :=
  (jget? (objFields c) "ColumnName").getD (.str "")

/-- The `Enabled` field of a column entry, if present. -/
def enabledOf (c : Json) : Option Json :=
  jget? (objFields c) "Enabled"

/-- Specification-side counting function for the return-value claim
(spec S4/S8: every (table, column) match is counted, already-disabled
columns included): the count contributed by one table entry. -/
def specTableCount (t : Json) : Nat :=
  match lookupExclusion (tableNameOf t) with
  | none => 0
  | some excl => ((columnsOf t).filter (fun c => memCols (columnNameOf c) excl)).length

/-- Specification-side counting function: the total number of
(table, column) matches of the exclusion map in a document. -/
def specDisabledCount (doc : Json) : Nat :=
  ((tablesOf doc).map specTableCount).sum

/-- A small concrete configuration document used by the witnesses: one
matched table with one matched and one unmatched column, one unmatched
table, and an extra top-level field. -/
def sampleDoc : Json :=
  Json.obj [("Tables", Json.arr
      [Json.obj [("TableName", Json.str "Sales.SalesOrderDetail"),
                 ("Columns", Json.arr
                    [Json.obj [("ColumnName", Json.str "SalesOrderDetailID"),
                               ("Enabled", Json.bool true)],
                     Json.obj [("ColumnName", Json.str "OrderQty"),
                               ("Enabled", Json.bool true)]])],
       Json.obj [("TableName", Json.str "HumanResources.Employee"),
                 ("Columns", Json.arr
                    [Json.obj [("ColumnName", Json.str "JobTitle"),
                               ("Enabled", Json.bool true)]])]]),
    ("Version", Json.str "1")]

/-- The document `fix_config` produces from `sampleDoc`: the matched
column has `Enabled = false`, everything else is unchanged. -/
def sampleDocFixed : Json :=
  Json.obj [("Tables", Json.arr
      [Json.obj [("TableName", Json.str "Sales.SalesOrderDetail"),
                 ("Columns", Json.arr
                    [Json.obj [("ColumnName", Json.str "SalesOrderDetailID"),
                               ("Enabled", Json.bool false)],
                     Json.obj [("ColumnName", Json.str "OrderQty"),
                               ("Enabled", Json.bool true)]])],
       Json.obj [("TableName", Json.str "HumanResources.Employee"),
                 ("Columns", Json.arr
                    [Json.obj [("ColumnName", Json.str "JobTitle"),
                               ("Enabled", Json.bool true)]])]]),
    ("Version", Json.str "1")]

/-! ### Basic lemmas about field access and update -/

theorem jget?_nil (k : String) : jget? [] k = none := rfl

theorem jget?_cons (a : String × Json) (fs : List (String × Json)) (k : String) :
    jget? (a :: fs) k = if a.1 == k then some a.2 else jget? fs k := by
  by_cases h : (a.1 == k) = true
  · simp [jget?, List.find?_cons_of_pos, h]
  · simp only [Bool.not_eq_true] at h
    simp [jget?, List.find?_cons_of_neg, h]

theorem jget?_map_set_self (fs : List (String × Json)) (k : String) (v : Json)
    (h : fs.any (fun p => p.1 == k) = true) :
    jget? (fs.map (fun p => if p.1 == k then (p.1, v) else p)) k = some v := by
  induction fs with
  | nil => simp at h
  | cons a fs ih =>
      by_cases ha : a.1 = k
      · simp [jget?_cons, ha]
      · have h' : fs.any (fun p => p.1 == k) = true := by
          simpa [List.any_cons, ha] using h
        simpa [jget?_cons, ha] using ih h'

theorem jget?_map_set_ne (fs : List (String × Json)) {k k' : String} (v : Json)
    (hne : k' ≠ k) :
    jget? (fs.map (fun p => if p.1 == k then (p.1, v) else p)) k' = jget? fs k' := by
  induction fs with
  | nil => rfl
  | cons a fs ih =>
      by_cases ha : a.1 = k
      · have ha' : ¬ a.1 = k' := by
          rw [ha]
          exact fun hh => hne hh.symm
        rw [List.map_cons, jget?_cons, jget?_cons]
        have he : (if a.1 == k then (a.1, v) else a) = (a.1, v) := by simp [ha]
        have hb : (a.1 == k') = false := by simpa using ha'
        rw [he]
        simp only [hb, Bool.false_eq_true, if_false]
        exact ih
      · rw [List.map_cons, jget?_cons, jget?_cons]
        have he : (if a.1 == k then (a.1, v) else a) = a := by simp [ha]
        rw [he]
        by_cases hk' : a.1 = k'
        · have hb : (a.1 == k') = true := by simpa using hk'
          simp only [hb, if_true]
        · have hb : (a.1 == k') = false := by simpa using hk'
          simp only [hb, Bool.false_eq_true, if_false]
          exact ih

theorem jget?_setField_self (fs : List (String × Json)) (k : String) (v : Json) :
    jget? (setField fs k v) k = some v := by
  by_cases h : fs.any (fun p => p.1 == k) = true
  · simpa [setField, h] using jget?_map_set_self fs k v h
  · simp only [Bool.not_eq_true] at h
    have hn : fs.find? (fun p => p.1 == k) = none := by
      refine List.find?_eq_none.mpr ?_
      intro x hx hpx
      have : fs.any (fun p => p.1 == k) = true := List.any_eq_true.mpr ⟨x, hx, hpx⟩
      simp [this] at h
    simp [setField, h, jget?, List.find?_append, hn, List.find?]

theorem jget?_setField_ne (fs : List (String × Json)) {k k' : String} (v : Json)
    (hne : k' ≠ k) :
    jget? (setField fs k v) k' = jget? fs k' := by
  by_cases h : fs.any (fun p => p.1 == k) = true
  · simpa [setField, h] using jget?_map_set_ne fs v hne
  · simp only [Bool.not_eq_true] at h
    have hkb : (k == k') = false := by
      simp only [beq_eq_false_iff_ne, ne_eq]
      exact fun hh => hne hh.symm
    simp [setField, h, jget?, List.find?_append, List.find?, hkb]

theorem any_key_setField (fs : List (String × Json)) (k : String) (v : Json) :
    (setField fs k v).any (fun p => p.1 == k) = true := by
  by_cases h : fs.any (fun p => p.1 == k) = true
  · simp only [setField, h, if_true, List.any_map]
    rcases List.any_eq_true.mp h with ⟨x, hx, hpx⟩
    have hx1 : x.1 = k := by simpa using hpx
    refine List.any_eq_true.mpr ⟨x, hx, ?_⟩
    simp [Function.comp, hx1]
  · simp only [Bool.not_eq_true] at h
    simp [setField, h, List.any_append]

theorem setField_idem (fs : List (String × Json)) (k : String) (v : Json) :
    setField (setField fs k v) k v = setField fs k v := by
  have h2 := any_key_setField fs k v
  by_cases h : fs.any (fun p => p.1 == k) = true
  · have h1 : setField fs k v = fs.map (fun p => if p.1 == k then (p.1, v) else p) := by
      simp [setField, h]
    rw [setField, if_pos h2, h1, List.map_map]
    refine List.map_congr_left ?_
    intro p _
    by_cases hp : p.1 = k <;> simp [Function.comp, hp]
  · simp only [Bool.not_eq_true] at h
    have h1 : setField fs k v = fs ++ [(k, v)] := by simp [setField, h]
    rw [setField, if_pos h2, h1, List.map_append]
    have hfs : fs.map (fun p => if p.1 == k then (p.1, v) else p) = fs := by
      have hid : ∀ a ∈ fs, (if a.1 == k then (a.1, v) else a) = id a := by
        intro a ha
        have : ¬ a.1 = k := by
          intro hc
          have : fs.any (fun p => p.1 == k) = true :=
            List.any_eq_true.mpr ⟨a, ha, by simp [hc]⟩
          simp [this] at h
        simp [this]
      rw [List.map_congr_left hid, List.map_id]
    rw [hfs]
    simp

theorem filter_setField (fs : List (String × Json)) (k : String) (v : Json) :
    (setField fs k v).filter (fun p => p.1 != k) = fs.filter (fun p => p.1 != k) := by
  by_cases h : fs.any (fun p => p.1 == k) = true
  · rw [setField, if_pos h, List.filter_map]
    have hpf : ((fun p : String × Json => p.1 != k) ∘
        (fun p => if p.1 == k then (p.1, v) else p)) = fun p => p.1 != k := by
      funext p
      by_cases hp : p.1 = k <;> simp [Function.comp, hp]
    rw [hpf]
    have hid : ∀ a ∈ fs.filter (fun p => p.1 != k), (if a.1 == k then (a.1, v) else a) = id a := by
      intro a ha
      have h2 := (List.mem_filter.mp ha).2
      have : ¬ a.1 = k := by simpa using h2
      simp [this]
    rw [List.map_congr_left hid, List.map_id]
  · simp only [Bool.not_eq_true] at h
    rw [setField, h]
    simp [List.filter_append]

/-! ### Inversion and structure lemmas for the loops -/

theorem fixColumns_nil_inv {excl : List String} {cs' : List Json} {m : Nat}
    (h : fixColumns excl [] = some (cs', m)) : cs' = [] ∧ m = 0 := by
  simp [fixColumns] at h
  exact ⟨h.1, h.2.symm⟩

theorem fixColumns_cons_inv {excl : List String} {c : Json} {cs cs' : List Json} {m : Nat}
    (h : fixColumns excl (c :: cs) = some (cs', m)) :
    ∃ c1 k cs1 m1, fixColumn excl c = some (c1, k) ∧ fixColumns excl cs = some (cs1, m1) ∧
      cs' = c1 :: cs1 ∧ m = k + m1 := by
  cases hc : fixColumn excl c with
  | none =>
      simp [fixColumns, hc] at h
  | some p =>
      obtain ⟨c1, k⟩ := p
      cases hcs : fixColumns excl cs with
      | none => simp [fixColumns, hc, hcs] at h
      | some q =>
          obtain ⟨cs1, m1⟩ := q
          simp [fixColumns, hc, hcs] at h
          exact ⟨c1, k, cs1, m1, rfl, rfl, h.1.symm, h.2.symm⟩

theorem fixTables_nil_inv {ts' : List Json} {n : Nat}
    (h : fixTables [] = some (ts', n)) : ts' = [] ∧ n = 0 := by
  simp [fixTables] at h
  exact ⟨h.1, h.2.symm⟩

theorem fixTables_cons_inv {t : Json} {ts ts' : List Json} {n : Nat}
    (h : fixTables (t :: ts) = some (ts', n)) :
    ∃ t1 k ts1 n1, fixTable t = some (t1, k) ∧ fixTables ts = some (ts1, n1) ∧
      ts' = t1 :: ts1 ∧ n = k + n1 := by
  cases ht : fixTable t with
  | none => simp [fixTables, ht] at h
  | some p =>
      obtain ⟨t1, k⟩ := p
      cases hts : fixTables ts with
      | none => simp [fixTables, ht, hts] at h
      | some q =>
          obtain ⟨ts1, n1⟩ := q
          simp [fixTables, ht, hts] at h
          exact ⟨t1, k, ts1, n1, rfl, rfl, h.1.symm, h.2.symm⟩

theorem fixColumns_forall2 {excl : List String} :
    ∀ {cs cs' : List Json} {m : Nat}, fixColumns excl cs = some (cs', m) →
      List.Forall₂ (fun c c' => ∃ k, fixColumn excl c = some (c', k)) cs cs' := by
  intro cs
  induction cs with
  | nil =>
      intro cs' m h
      rw [(fixColumns_nil_inv h).1]
      exact List.Forall₂.nil
  | cons c cs ih =>
      intro cs' m h
      obtain ⟨c1, k, cs1, m1, hc, hcs, hcs', _⟩ := fixColumns_cons_inv h
      rw [hcs']
      exact List.Forall₂.cons ⟨k, hc⟩ (ih hcs)

theorem fixTables_forall2 :
    ∀ {ts ts' : List Json} {n : Nat}, fixTables ts = some (ts', n) →
      List.Forall₂ (fun t t' => ∃ k, fixTable t = some (t', k)) ts ts' := by
  intro ts
  induction ts with
  | nil =>
      intro ts' n h
      rw [(fixTables_nil_inv h).1]
      exact List.Forall₂.nil
  | cons t ts ih =>
      intro ts' n h
      obtain ⟨t1, k, ts1, n1, ht, hts, hts', _⟩ := fixTables_cons_inv h
      rw [hts']
      exact List.Forall₂.cons ⟨k, ht⟩ (ih hts)

theorem forall2_exists_left {α β : Type} {R : α → β → Prop} :
    ∀ {l : List α} {l' : List β}, List.Forall₂ R l l' → ∀ {x : β}, x ∈ l' →
      ∃ y ∈ l, R y x := by
  intro l l' h
  induction h with
  | nil => intro x hx; cases hx
  | cons hr hrest ih =>
      intro x hx
      rcases List.mem_cons.mp hx with hx | hx
      · exact ⟨_, List.mem_cons_self _ _, hx ▸ hr⟩
      · obtain ⟨y, hy, hyx⟩ := ih hx
        exact ⟨y, List.mem_cons_of_mem _ hy, hyx⟩

theorem fixColumn_inv {excl : List String} {c c' : Json} {k : Nat}
    (h : fixColumn excl c = some (c', k)) :
    ∃ fs, c = Json.obj fs ∧
      ((memCols (columnNameOf c) excl = true ∧
          c' = Json.obj (setField fs "Enabled" (Json.bool false)) ∧ k = 1) ∨
       (memCols (columnNameOf c) excl = false ∧ c' = c ∧ k = 0)) := by
  cases c with
  | obj fs =>
      refine ⟨fs, rfl, ?_⟩
      by_cases hm : memCols ((jget? fs "ColumnName").getD (.str "")) excl = true
      · left
        simp [fixColumn, hm] at h
        refine ⟨by simpa [columnNameOf, objFields] using hm, h.1.symm, h.2.symm⟩
      · right
        simp only [Bool.not_eq_true] at hm
        simp [fixColumn, hm] at h
        refine ⟨by simpa [columnNameOf, objFields] using hm, h.1.symm, h.2.symm⟩
  | null => simp [fixColumn] at h
  | bool b => simp [fixColumn] at h
  | num i => simp [fixColumn] at h
  | str s => simp [fixColumn] at h
  | arr xs => simp [fixColumn] at h

theorem fixColumns_all_str {excl : List String} {es es' : List Json} {m : Nat}
    (hall : ∀ e ∈ es, ∃ s, e = Json.str s)
    (h : fixColumns excl es = some (es', m)) : es = [] ∧ es' = [] ∧ m = 0 := by
  cases es with
  | nil =>
      obtain ⟨h1, h2⟩ := fixColumns_nil_inv h
      exact ⟨rfl, h1, h2⟩
  | cons e es =>
      obtain ⟨c1, k, cs1, m1, hc, _, _, _⟩ := fixColumns_cons_inv h
      obtain ⟨s, hs⟩ := hall e (List.mem_cons_self _ _)
      rw [hs] at hc
      simp [fixColumn] at hc

theorem fixTables_all_str {es es' : List Json} {m : Nat}
    (hall : ∀ e ∈ es, ∃ s, e = Json.str s)
    (h : fixTables es = some (es', m)) : es = [] ∧ es' = [] ∧ m = 0 := by
  cases es with
  | nil =>
      obtain ⟨h1, h2⟩ := fixTables_nil_inv h
      exact ⟨rfl, h1, h2⟩
  | cons e es =>
      obtain ⟨t1, k, ts1, n1, ht, _, _, _⟩ := fixTables_cons_inv h
      obtain ⟨s, hs⟩ := hall e (List.mem_cons_self _ _)
      rw [hs] at ht
      simp [fixTable] at ht

theorem elemsOf_all_str {other : Json} (hna : ∀ xs, other ≠ Json.arr xs) {es : List Json}
    (he : elemsOf other = some es) : ∀ e ∈ es, ∃ s, e = Json.str s := by
  cases other with
  | arr xs => exact absurd rfl (hna xs)
  | obj fs =>
      simp only [elemsOf, Option.some.injEq] at he
      intro e hemem
      rw [← he] at hemem
      obtain ⟨p, _, hp⟩ := List.mem_map.mp hemem
      exact ⟨p.1, hp.symm⟩
  | str s =>
      simp only [elemsOf, Option.some.injEq] at he
      intro e hemem
      rw [← he] at hemem
      obtain ⟨c, _, hc⟩ := List.mem_map.mp hemem
      exact ⟨String.singleton c, hc.symm⟩
  | null => simp [elemsOf] at he
  | bool b => simp [elemsOf] at he
  | num i => simp [elemsOf] at he

theorem fixTable_inv {t t' : Json} {k : Nat} (h : fixTable t = some (t', k)) :
    ∃ fs, t = Json.obj fs ∧
      ((lookupExclusion (tableNameOf t) = none ∧ t' = t ∧ k = 0) ∨
       (∃ excl, lookupExclusion (tableNameOf t) = some excl ∧
         ((jget? fs "Columns" = none ∧ t' = t ∧ k = 0) ∨
          (∃ cs cs', jget? fs "Columns" = some (Json.arr cs) ∧
             fixColumns excl cs = some (cs', k) ∧
             t' = Json.obj (setField fs "Columns" (Json.arr cs'))) ∨
          (∃ other, jget? fs "Columns" = some other ∧ (∀ xs, other ≠ Json.arr xs) ∧
             elemsOf other = some [] ∧ t' = t ∧ k = 0)))) := by
  cases t with
  | obj fs =>
      refine ⟨fs, rfl, ?_⟩
      cases hl : lookupExclusion ((jget? fs "TableName").getD (.str "")) with
      | none =>
          left
          simp [fixTable, hl] at h
          exact ⟨hl, h.1.symm, h.2.symm⟩
      | some excl =>
          right
          refine ⟨excl, hl, ?_⟩
          cases hc : jget? fs "Columns" with
          | none =>
              left
              simp [fixTable, hl, hc] at h
              exact ⟨rfl, h.1.symm, h.2.symm⟩
          | some other =>
              cases other with
              | arr cs =>
                  cases hfc : fixColumns excl cs with
                  | none => simp [fixTable, hl, hc, hfc] at h
                  | some q =>
                      obtain ⟨cs', m⟩ := q
                      right; left
                      simp [fixTable, hl, hc, hfc] at h
                      obtain ⟨h1, h2⟩ := h
                      subst h2
                      exact ⟨cs, cs', rfl, hfc, h1.symm⟩
              | obj gs =>
                  right; right
                  cases hfc : fixColumns excl (gs.map (fun p => Json.str p.1)) with
                  | none => simp [fixTable, hl, hc, elemsOf, hfc] at h
                  | some q =>
                      obtain ⟨es', m⟩ := q
                      have hall : ∀ e ∈ gs.map (fun p => Json.str p.1), ∃ s, e = Json.str s := by
                        intro e he
                        obtain ⟨p, _, hp⟩ := List.mem_map.mp he
                        exact ⟨p.1, hp.symm⟩
                      obtain ⟨hes, _, hm⟩ := fixColumns_all_str hall hfc
                      simp [fixTable, hl, hc, elemsOf, hfc] at h
                      refine ⟨Json.obj gs, rfl, fun xs hxs => Json.noConfusion hxs,
                        by simp [elemsOf, hes], h.1.symm, ?_⟩
                      rw [← h.2]
                      exact hm
              | str s =>
                  right; right
                  cases hfc : fixColumns excl (s.data.map (fun c => Json.str (String.singleton c))) with
                  | none => simp [fixTable, hl, hc, elemsOf, hfc] at h
                  | some q =>
                      obtain ⟨es', m⟩ := q
                      have hall : ∀ e ∈ s.data.map (fun c => Json.str (String.singleton c)),
                          ∃ u, e = Json.str u := by
                        intro e he
                        obtain ⟨c, _, hcq⟩ := List.mem_map.mp he
                        exact ⟨String.singleton c, hcq.symm⟩
                      obtain ⟨hes, _, hm⟩ := fixColumns_all_str hall hfc
                      simp [fixTable, hl, hc, elemsOf, hfc] at h
                      refine ⟨Json.str s, rfl, fun xs hxs => Json.noConfusion hxs,
                        by simp [elemsOf, hes], h.1.symm, ?_⟩
                      rw [← h.2]
                      exact hm
              | null => simp [fixTable, hl, hc, elemsOf] at h
              | bool b => simp [fixTable, hl, hc, elemsOf] at h
              | num i => simp [fixTable, hl, hc, elemsOf] at h
  | null => simp [fixTable] at h
  | bool b => simp [fixTable] at h
  | num i => simp [fixTable] at h
  | str s => simp [fixTable] at h
  | arr xs => simp [fixTable] at h

theorem fix_config_inv {doc doc' : Json} {n : Nat} (h : fix_config doc = some (doc', n)) :
    ∃ fs, doc = Json.obj fs ∧
      ((jget? fs "Tables" = none ∧ doc' = doc ∧ n = 0) ∨
       (∃ ts ts', jget? fs "Tables" = some (Json.arr ts) ∧
          fixTables ts = some (ts', n) ∧
          doc' = Json.obj (setField fs "Tables" (Json.arr ts'))) ∨
       (∃ other, jget? fs "Tables" = some other ∧ (∀ xs, other ≠ Json.arr xs) ∧
          elemsOf other = some [] ∧ doc' = doc ∧ n = 0)) := by
  cases doc with
  | obj fs =>
      refine ⟨fs, rfl, ?_⟩
      cases hc : jget? fs "Tables" with
      | none =>
          left
          simp [fix_config, hc] at h
          exact ⟨rfl, h.1.symm, h.2.symm⟩
      | some other =>
          cases other with
          | arr ts =>
              cases hft : fixTables ts with
              | none => simp [fix_config, hc, hft] at h
              | some q =>
                  obtain ⟨ts', m⟩ := q
                  right; left
                  simp [fix_config, hc, hft] at h
                  obtain ⟨h1, h2⟩ := h
                  subst h2
                  exact ⟨ts, ts', rfl, hft, h1.symm⟩
          | obj gs =>
              right; right
              cases hft : fixTables (gs.map (fun p => Json.str p.1)) with
              | none => simp [fix_config, hc, elemsOf, hft] at h
              | some q =>
                  obtain ⟨es', m⟩ := q
                  have hall : ∀ e ∈ gs.map (fun p => Json.str p.1), ∃ s, e = Json.str s := by
                    intro e he
                    obtain ⟨p, _, hp⟩ := List.mem_map.mp he
                    exact ⟨p.1, hp.symm⟩
                  obtain ⟨hes, _, hm⟩ := fixTables_all_str hall hft
                  simp [fix_config, hc, elemsOf, hft] at h
                  refine ⟨Json.obj gs, rfl, fun xs hxs => Json.noConfusion hxs,
                    by simp [elemsOf, hes], h.1.symm, ?_⟩
                  rw [← h.2]
                  exact hm
          | str s =>
              right; right
              cases hft : fixTables (s.data.map (fun c => Json.str (String.singleton c))) with
              | none => simp [fix_config, hc, elemsOf, hft] at h
              | some q =>
                  obtain ⟨es', m⟩ := q
                  have hall : ∀ e ∈ s.data.map (fun c => Json.str (String.singleton c)),
                      ∃ u, e = Json.str u := by
                    intro e he
                    obtain ⟨c, _, hcq⟩ := List.mem_map.mp he
                    exact ⟨String.singleton c, hcq.symm⟩
                  obtain ⟨hes, _, hm⟩ := fixTables_all_str hall hft
                  simp [fix_config, hc, elemsOf, hft] at h
                  refine ⟨Json.str s, rfl, fun xs hxs => Json.noConfusion hxs,
                    by simp [elemsOf, hes], h.1.symm, ?_⟩
                  rw [← h.2]
                  exact hm
          | null => simp [fix_config, hc, elemsOf] at h
          | bool b => simp [fix_config, hc, elemsOf] at h
          | num i => simp [fix_config, hc, elemsOf] at h
  | null => simp [fix_config] at h
  | bool b => simp [fix_config] at h
  | num i => simp [fix_config] at h
  | str s => simp [fix_config] at h
  | arr xs => simp [fix_config] at h

/-! ### Count lemmas -/

theorem columnsOf_nonarr {fs : List (String × Json)} {other : Json}
    (hc : jget? fs "Columns" = some other) (hna : ∀ xs, other ≠ Json.arr xs) :
    columnsOf (Json.obj fs) = [] := by
  cases other <;> simp [columnsOf, objFields, hc]
  exact absurd rfl (hna _)

theorem tablesOf_nonarr {fs : List (String × Json)} {other : Json}
    (hc : jget? fs "Tables" = some other) (hna : ∀ xs, other ≠ Json.arr xs) :
    tablesOf (Json.obj fs) = [] := by
  cases other <;> simp [tablesOf, objFields, hc]
  exact absurd rfl (hna _)

theorem fixColumns_count {excl : List String} :
    ∀ {cs cs' : List Json} {m : Nat}, fixColumns excl cs = some (cs', m) →
      m = (cs.filter (fun c => memCols (columnNameOf c) excl)).length := by
  intro cs
  induction cs with
  | nil =>
      intro cs' m h
      simpa using (fixColumns_nil_inv h).2
  | cons c cs ih =>
      intro cs' m h
      obtain ⟨c1, k, cs1, m1, hc, hcs, _, hm⟩ := fixColumns_cons_inv h
      obtain ⟨fs, hfs, hcase⟩ := fixColumn_inv hc
      have hrest := ih hcs
      rcases hcase with ⟨hmem, _, hk⟩ | ⟨hmem, _, hk⟩ <;> subst hk hm <;>
        rw [List.filter_cons] <;> simp [hmem] <;> omega

theorem fixTable_count {t t' : Json} {k : Nat} (h : fixTable t = some (t', k)) :
    k = specTableCount t := by
  obtain ⟨fs, hfs, hcase⟩ := fixTable_inv h
  subst hfs
  rcases hcase with ⟨hl, _, hk⟩ | ⟨excl, hl, hcols⟩
  · rw [hk]
    simp [specTableCount, hl]
  · rcases hcols with ⟨hc, _, hk⟩ | ⟨cs, cs', hc, hfc, _⟩ | ⟨other, hc, hna, _, _, hk⟩
    · rw [hk]
      have hce : columnsOf (Json.obj fs) = [] := by simp [columnsOf, objFields, hc]
      simp [specTableCount, hl, hce]
    · have hce : columnsOf (Json.obj fs) = cs := by simp [columnsOf, objFields, hc]
      rw [fixColumns_count hfc]
      simp [specTableCount, hl, hce]
    · rw [hk]
      simp [specTableCount, hl, columnsOf_nonarr hc hna]

theorem fixTables_count :
    ∀ {ts ts' : List Json} {n : Nat}, fixTables ts = some (ts', n) →
      n = (ts.map specTableCount).sum := by
  intro ts
  induction ts with
  | nil =>
      intro ts' n h
      simpa using (fixTables_nil_inv h).2
  | cons t ts ih =>
      intro ts' n h
      obtain ⟨t1, k, ts1, n1, ht, hts, _, hn⟩ := fixTables_cons_inv h
      subst hn
      rw [List.map_cons, List.sum_cons, fixTable_count ht, ih hts]

theorem fix_config_count {doc doc' : Json} {n : Nat} (h : fix_config doc = some (doc', n)) :
    n = specDisabledCount doc := by
  obtain ⟨fs, hfs, hcase⟩ := fix_config_inv h
  subst hfs
  rcases hcase with ⟨hc, _, hn⟩ | ⟨ts, ts', hc, hft, _⟩ | ⟨other, hc, hna, _, _, hn⟩
  · rw [hn]
    simp [specDisabledCount, tablesOf, objFields, hc]
  · have hte : tablesOf (Json.obj fs) = ts := by simp [tablesOf, objFields, hc]
    rw [fixTables_count hft]
    simp [specDisabledCount, hte]
  · rw [hn]
    simp [specDisabledCount, tablesOf_nonarr hc hna]

/-! ### Idempotence lemmas -/

theorem fixColumn_idem {excl : List String} {c c' : Json} {k : Nat}
    (h : fixColumn excl c = some (c', k)) : fixColumn excl c' = some (c', k) := by
  obtain ⟨fs, hfs, hcase⟩ := fixColumn_inv h
  subst hfs
  rcases hcase with ⟨hmem, hc', hk⟩ | ⟨hmem, hc', hk⟩
  · subst hc' hk
    have hname : jget? (setField fs "Enabled" (Json.bool false)) "ColumnName" =
        jget? fs "ColumnName" := jget?_setField_ne fs _ (by decide)
    have hmem' : memCols ((jget? (setField fs "Enabled" (Json.bool false))
        "ColumnName").getD (.str "")) excl = true := by
      rw [hname]
      simpa [columnNameOf, objFields] using hmem
    simp [fixColumn, hmem', setField_idem]
  · subst hc' hk
    have hmem' : memCols ((jget? fs "ColumnName").getD (.str "")) excl = false := by
      simpa [columnNameOf, objFields] using hmem
    simp [fixColumn, hmem']

theorem fixColumns_idem {excl : List String} :
    ∀ {cs cs' : List Json} {m : Nat}, fixColumns excl cs = some (cs', m) →
      fixColumns excl cs' = some (cs', m) := by
  intro cs
  induction cs with
  | nil =>
      intro cs' m h
      obtain ⟨h1, h2⟩ := fixColumns_nil_inv h
      subst h1 h2
      rfl
  | cons c cs ih =>
      intro cs' m h
      obtain ⟨c1, k, cs1, m1, hc, hcs, hcons, hm⟩ := fixColumns_cons_inv h
      subst hcons hm
      simp [fixColumns, fixColumn_idem hc, ih hcs]

theorem fixTable_idem {t t' : Json} {k : Nat}
    (h : fixTable t = some (t', k)) : fixTable t' = some (t', k) := by
  obtain ⟨fs, hfs, hcase⟩ := fixTable_inv h
  subst hfs
  have hl0 : lookupExclusion (tableNameOf (Json.obj fs)) =
      lookupExclusion ((jget? fs "TableName").getD (.str "")) := rfl
  rcases hcase with ⟨hl, ht', hk⟩ | ⟨excl, hl, hcols⟩
  · subst ht' hk
    rw [hl0] at hl
    simp [fixTable, hl]
  · rw [hl0] at hl
    rcases hcols with ⟨hc, ht', hk⟩ | ⟨cs, cs', hc, hfc, ht'⟩ | ⟨other, hc, hna, he, ht', hk⟩
    · subst ht' hk
      simp [fixTable, hl, hc]
    · subst ht'
      have htn : jget? (setField fs "Columns" (Json.arr cs')) "TableName" =
          jget? fs "TableName" := jget?_setField_ne fs _ (by decide)
      have hl2 : lookupExclusion ((jget? (setField fs "Columns" (Json.arr cs'))
          "TableName").getD (.str "")) = some excl := by
        rw [htn]
        exact hl
      have hc2 : jget? (setField fs "Columns" (Json.arr cs')) "Columns" =
          some (Json.arr cs') := jget?_setField_self fs "Columns" (Json.arr cs')
      simp [fixTable, hl2, hc2, fixColumns_idem hfc, setField_idem]
    · subst ht' hk
      simp [fixTable, hl, hc, he, fixColumns]

theorem fixTables_idem :
    ∀ {ts ts' : List Json} {n : Nat}, fixTables ts = some (ts', n) →
      fixTables ts' = some (ts', n) := by
  intro ts
  induction ts with
  | nil =>
      intro ts' n h
      obtain ⟨h1, h2⟩ := fixTables_nil_inv h
      subst h1 h2
      rfl
  | cons t ts ih =>
      intro ts' n h
      obtain ⟨t1, k, ts1, n1, ht, hts, hcons, hn⟩ := fixTables_cons_inv h
      subst hcons hn
      simp [fixTables, fixTable_idem ht, ih hts]

theorem fix_config_idem_aux {doc doc' : Json} {n : Nat}
    (h : fix_config doc = some (doc', n)) : fix_config doc' = some (doc', n) := by
  obtain ⟨fs, hfs, hcase⟩ := fix_config_inv h
  subst hfs
  rcases hcase with ⟨hc, hd', hn⟩ | ⟨ts, ts', hc, hft, hd'⟩ | ⟨other, hc, hna, he, hd', hn⟩
  · subst hd' hn
    simp [fix_config, hc]
  · subst hd'
    have ht2 : jget? (setField fs "Tables" (Json.arr ts')) "Tables" =
        some (Json.arr ts') := jget?_setField_self fs "Tables" (Json.arr ts')
    simp [fix_config, ht2, fixTables_idem hft, setField_idem]
  · subst hd' hn
    simp [fix_config, hc, he, fixTables]

/-! ### Table-level postconditions -/

theorem fixTable_post {t t' : Json} {k : Nat} (h : fixTable t = some (t', k)) :
    ∀ excl, lookupExclusion (tableNameOf t') = some excl →
    ∀ c' ∈ columnsOf t', memCols (columnNameOf c') excl = true →
    enabledOf c' = some (Json.bool false) := by
  obtain ⟨fs, hfs, hcase⟩ := fixTable_inv h
  subst hfs
  rcases hcase with ⟨hl, ht', hk⟩ | ⟨excl0, hl, hcols⟩
  · subst ht'
    intro excl hexcl c' hc' hmem
    rw [hl] at hexcl
    cases hexcl
  · rcases hcols with ⟨hc, ht', hk⟩ | ⟨cs, cs', hc, hfc, ht'⟩ | ⟨other, hc, hna, he, ht', hk⟩
    · subst ht'
      intro excl hexcl c' hc' hmem
      have hce : columnsOf (Json.obj fs) = [] := by simp [columnsOf, objFields, hc]
      rw [hce] at hc'
      cases hc'
    · subst ht'
      intro excl hexcl c' hc' hmem
      have htn0 : jget? (setField fs "Columns" (Json.arr cs')) "TableName" =
          jget? fs "TableName" := jget?_setField_ne fs _ (by decide)
      have htn : tableNameOf (Json.obj (setField fs "Columns" (Json.arr cs'))) =
          tableNameOf (Json.obj fs) := by
        simp [tableNameOf, objFields, htn0]
      rw [htn, hl] at hexcl
      injection hexcl with hexcl
      subst hexcl
      have hcols' : columnsOf (Json.obj (setField fs "Columns" (Json.arr cs'))) = cs' := by
        simp [columnsOf, objFields, jget?_setField_self]
      rw [hcols'] at hc'
      obtain ⟨c, hcmem, kk, hcfix⟩ := forall2_exists_left (fixColumns_forall2 hfc) hc'
      obtain ⟨cfs, hcfs, hccase⟩ := fixColumn_inv hcfix
      rcases hccase with ⟨hmemc, hceq, _⟩ | ⟨hmemc, hceq, _⟩
      · subst hceq
        simp [enabledOf, objFields, jget?_setField_self]
      · subst hceq
        rw [hmemc] at hmem
        cases hmem
    · subst ht'
      intro excl hexcl c' hc' hmem
      rw [columnsOf_nonarr hc hna] at hc'
      cases hc'

theorem fixTable_frame {t t' : Json} {k : Nat} (h : fixTable t = some (t', k)) :
    List.Forall₂ (fun c c' =>
      (∀ excl, lookupExclusion (tableNameOf t) = some excl →
        memCols (columnNameOf c) excl = false) →
      enabledOf c' = enabledOf c) (columnsOf t) (columnsOf t') := by
  obtain ⟨fs, hfs, hcase⟩ := fixTable_inv h
  subst hfs
  rcases hcase with ⟨hl, ht', hk⟩ | ⟨excl0, hl, hcols⟩
  · subst ht'
    exact List.forall₂_same.mpr (fun c _ _ => rfl)
  · rcases hcols with ⟨hc, ht', hk⟩ | ⟨cs, cs', hc, hfc, ht'⟩ | ⟨other, hc, hna, he, ht', hk⟩
    · subst ht'
      exact List.forall₂_same.mpr (fun c _ _ => rfl)
    · subst ht'
      have hcint : columnsOf (Json.obj fs) = cs := by simp [columnsOf, objFields, hc]
      have hcout : columnsOf (Json.obj (setField fs "Columns" (Json.arr cs'))) = cs' := by
        simp [columnsOf, objFields, jget?_setField_self]
      rw [hcint, hcout]
      refine (fixColumns_forall2 hfc).imp ?_
      intro c c' hcc hcond
      obtain ⟨kk, hcfix⟩ := hcc
      obtain ⟨cfs, hcfs, hccase⟩ := fixColumn_inv hcfix
      rcases hccase with ⟨hmemc, hceq, _⟩ | ⟨hmemc, hceq, _⟩
      · rw [hcond excl0 hl] at hmemc
        cases hmemc
      · rw [hceq]
    · subst ht'
      rw [columnsOf_nonarr hc hna]
      exact List.Forall₂.nil

theorem fixTable_fields {t t' : Json} {k : Nat} (h : fixTable t = some (t', k)) :
    (objFields t').filter (fun p => p.1 != "Columns") =
      (objFields t).filter (fun p => p.1 != "Columns") ∧
    List.Forall₂ (fun c c' =>
      (objFields c').filter (fun p => p.1 != "Enabled") =
        (objFields c).filter (fun p => p.1 != "Enabled"))
      (columnsOf t) (columnsOf t') := by
  obtain ⟨fs, hfs, hcase⟩ := fixTable_inv h
  subst hfs
  rcases hcase with ⟨hl, ht', hk⟩ | ⟨excl0, hl, hcols⟩
  · subst ht'
    exact ⟨rfl, List.forall₂_same.mpr (fun c _ => rfl)⟩
  · rcases hcols with ⟨hc, ht', hk⟩ | ⟨cs, cs', hc, hfc, ht'⟩ | ⟨other, hc, hna, he, ht', hk⟩
    · subst ht'
      exact ⟨rfl, List.forall₂_same.mpr (fun c _ => rfl)⟩
    · subst ht'
      constructor
      · simp only [objFields]
        exact filter_setField fs "Columns" (Json.arr cs')
      · have hcint : columnsOf (Json.obj fs) = cs := by simp [columnsOf, objFields, hc]
        have hcout : columnsOf (Json.obj (setField fs "Columns" (Json.arr cs'))) = cs' := by
          simp [columnsOf, objFields, jget?_setField_self]
        rw [hcint, hcout]
        refine (fixColumns_forall2 hfc).imp ?_
        intro c c' hcc
        obtain ⟨kk, hcfix⟩ := hcc
        obtain ⟨cfs, hcfs, hccase⟩ := fixColumn_inv hcfix
        rcases hccase with ⟨hmemc, hceq, _⟩ | ⟨hmemc, hceq, _⟩
        · subst hceq hcfs
          simp only [objFields]
          exact filter_setField cfs "Enabled" (Json.bool false)
        · rw [hceq]
    · subst ht'
      refine ⟨rfl, ?_⟩
      rw [columnsOf_nonarr hc hna]
      exact List.Forall₂.nil

theorem fixTable_mono {t t' : Json} {k : Nat} (h : fixTable t = some (t', k)) :
    List.Forall₂ (fun c c' =>
      enabledOf c' = some (Json.bool true) → enabledOf c = some (Json.bool true))
      (columnsOf t) (columnsOf t') := by
  obtain ⟨fs, hfs, hcase⟩ := fixTable_inv h
  subst hfs
  rcases hcase with ⟨hl, ht', hk⟩ | ⟨excl0, hl, hcols⟩
  · subst ht'
    exact List.forall₂_same.mpr (fun c _ h => h)
  · rcases hcols with ⟨hc, ht', hk⟩ | ⟨cs, cs', hc, hfc, ht'⟩ | ⟨other, hc, hna, he, ht', hk⟩
    · subst ht'
      exact List.forall₂_same.mpr (fun c _ h => h)
    · subst ht'
      have hcint : columnsOf (Json.obj fs) = cs := by simp [columnsOf, objFields, hc]
      have hcout : columnsOf (Json.obj (setField fs "Columns" (Json.arr cs'))) = cs' := by
        simp [columnsOf, objFields, jget?_setField_self]
      rw [hcint, hcout]
      refine (fixColumns_forall2 hfc).imp ?_
      intro c c' hcc htrue
      obtain ⟨kk, hcfix⟩ := hcc
      obtain ⟨cfs, hcfs, hccase⟩ := fixColumn_inv hcfix
      rcases hccase with ⟨hmemc, hceq, _⟩ | ⟨hmemc, hceq, _⟩
      · subst hceq
        rw [enabledOf, objFields, jget?_setField_self] at htrue
        cases htrue
      · rw [hceq] at htrue
        exact htrue
    · subst ht'
      rw [columnsOf_nonarr hc hna]
      exact List.Forall₂.nil

/-! ### The claims -/

/-- Claim C1, completeness of patching: whenever `fix_config` succeeds,
every table entry of the resulting document whose `TableName` is a key
of the exclusion map has `Enabled = false` on every column entry whose
`ColumnName` is in that table's exclusion set; this is the state held
in memory on return and written back to disk. -/
theorem claim_C1 (doc doc' : Json) (n : Nat) (h : fix_config doc = some (doc', n)) :
    ∀ t' ∈ tablesOf doc', ∀ excl, lookupExclusion (tableNameOf t') = some excl →
    ∀ c' ∈ columnsOf t', memCols (columnNameOf c') excl = true →
    enabledOf c' = some (Json.bool false) := by
  obtain ⟨fs, hfs, hcase⟩ := fix_config_inv h
  subst hfs
  rcases hcase with ⟨hc, hd', _⟩ | ⟨ts, ts', hc, hft, hd'⟩ | ⟨other, hc, hna, _, hd', _⟩
  · subst hd'
    intro t' ht'
    have hte : tablesOf (Json.obj fs) = [] := by simp [tablesOf, objFields, hc]
    rw [hte] at ht'
    cases ht'
  · subst hd'
    intro t' ht'
    have hte : tablesOf (Json.obj (setField fs "Tables" (Json.arr ts'))) = ts' := by
      simp [tablesOf, objFields, jget?_setField_self]
    rw [hte] at ht'
    obtain ⟨t, htmem, kk, htfix⟩ := forall2_exists_left (fixTables_forall2 hft) ht'
    exact fixTable_post htfix
  · subst hd'
    intro t' ht'
    rw [tablesOf_nonarr hc hna] at ht'
    cases ht'

/-- Claim C2, containment: for every column entry of every table entry
such that the table's name is not a key of the exclusion map or the
column's name is not in that table's exclusion set, `Enabled` is
unchanged by `fix_config` (the tables and columns of input and output
are related positionally). -/
theorem claim_C2 (doc doc' : Json) (n : Nat) (h : fix_config doc = some (doc', n)) :
    List.Forall₂ (fun t t' =>
      List.Forall₂ (fun c c' =>
        (∀ excl, lookupExclusion (tableNameOf t) = some excl →
          memCols (columnNameOf c) excl = false) →
        enabledOf c' = enabledOf c) (columnsOf t) (columnsOf t'))
      (tablesOf doc) (tablesOf doc') := by
  obtain ⟨fs, hfs, hcase⟩ := fix_config_inv h
  subst hfs
  rcases hcase with ⟨hc, hd', _⟩ | ⟨ts, ts', hc, hft, hd'⟩ | ⟨other, hc, hna, _, hd', _⟩
  · subst hd'
    have hte : tablesOf (Json.obj fs) = [] := by simp [tablesOf, objFields, hc]
    rw [hte]
    exact List.Forall₂.nil
  · subst hd'
    have htin : tablesOf (Json.obj fs) = ts := by simp [tablesOf, objFields, hc]
    have htout : tablesOf (Json.obj (setField fs "Tables" (Json.arr ts'))) = ts' := by
      simp [tablesOf, objFields, jget?_setField_self]
    rw [htin, htout]
    refine (fixTables_forall2 hft).imp ?_
    intro t t' hex
    obtain ⟨kk, htfix⟩ := hex
    exact fixTable_frame htfix
  · subst hd'
    rw [tablesOf_nonarr hc hna]
    exact List.Forall₂.nil

/-- Claim C3, field preservation: `fix_config` leaves every field other
than `Enabled` of every column entry unchanged, every field other than
`Columns` of every table entry unchanged, and every top-level field
other than `Tables` unchanged (order and values preserved); `Tables`
and `Columns` themselves change only in the nested entries. -/
theorem claim_C3 (doc doc' : Json) (n : Nat) (h : fix_config doc = some (doc', n)) :
    (objFields doc').filter (fun p => p.1 != "Tables") =
      (objFields doc).filter (fun p => p.1 != "Tables") ∧
    List.Forall₂ (fun t t' =>
      (objFields t').filter (fun p => p.1 != "Columns") =
        (objFields t).filter (fun p => p.1 != "Columns") ∧
      List.Forall₂ (fun c c' =>
        (objFields c').filter (fun p => p.1 != "Enabled") =
          (objFields c).filter (fun p => p.1 != "Enabled"))
        (columnsOf t) (columnsOf t'))
      (tablesOf doc) (tablesOf doc') := by
  obtain ⟨fs, hfs, hcase⟩ := fix_config_inv h
  subst hfs
  rcases hcase with ⟨hc, hd', _⟩ | ⟨ts, ts', hc, hft, hd'⟩ | ⟨other, hc, hna, _, hd', _⟩
  · subst hd'
    refine ⟨rfl, ?_⟩
    have hte : tablesOf (Json.obj fs) = [] := by simp [tablesOf, objFields, hc]
    rw [hte]
    exact List.Forall₂.nil
  · subst hd'
    constructor
    · simp only [objFields]
      exact filter_setField fs "Tables" (Json.arr ts')
    · have htin : tablesOf (Json.obj fs) = ts := by simp [tablesOf, objFields, hc]
      have htout : tablesOf (Json.obj (setField fs "Tables" (Json.arr ts'))) = ts' := by
        simp [tablesOf, objFields, jget?_setField_self]
      rw [htin, htout]
      refine (fixTables_forall2 hft).imp ?_
      intro t t' hex
      obtain ⟨kk, htfix⟩ := hex
      exact fixTable_fields htfix
  · subst hd'
    refine ⟨rfl, ?_⟩
    rw [tablesOf_nonarr hc hna]
    exact List.Forall₂.nil

/-- Claim C4, return value: a successful `fix_config` returns exactly
the number of (table entry, column entry) occurrences matched by the
exclusion map, counting matched columns whose `Enabled` was already
`false`. -/
theorem claim_C4 (doc doc' : Json) (n : Nat) (h : fix_config doc = some (doc', n)) :
    n = specDisabledCount doc :=
  fix_config_count h

/-- Claim C5, error atomicity: a missing file fails with `IOError` and a
file whose content does not parse fails with `ParseError`; in both
cases the failure happens before any write, so the on-disk content is
unchanged (the outcome carries the disk state at the end of the run). -/
theorem claim_C5 (parse : String → Option Json) (ser : Json → String)
    (disk : Option String) :
    (disk = none → fix_config_run parse ser disk = RunResult.ioError none) ∧
    (∀ s, disk = some s → parse s = none →
      fix_config_run parse ser disk = RunResult.parseError s) := by
  constructor
  · intro hd
    subst hd
    rfl
  · intro s hd hp
    subst hd
    simp [fix_config_run, hp]

/-- Claim C6, idempotence: applying the `fix_config` transformation to
its own result changes nothing — the second run returns the same
document (and the same count). -/
theorem claim_C6 (doc doc' : Json) (n : Nat) (h : fix_config doc = some (doc', n)) :
    fix_config doc' = some (doc', n) :=
  fix_config_idem_aux h

/-- Claim C7, missing-field tolerance: a document without a `Tables`
field is returned unchanged with count 0 and no error, and a matched
table without a `Columns` field is treated as having no columns and
causes no error. -/
theorem claim_C7 :
    (∀ fs : List (String × Json), jget? fs "Tables" = none →
      fix_config (Json.obj fs) = some (Json.obj fs, 0)) ∧
    (∀ (fs : List (String × Json)) (excl : List String),
      lookupExclusion ((jget? fs "TableName").getD (Json.str "")) = some excl →
      jget? fs "Columns" = none → fixTable (Json.obj fs) = some (Json.obj fs, 0)) := by
  constructor
  · intro fs h
    simp [fix_config, h]
  · intro fs excl hl hc
    simp [fixTable, hl, hc]

/-- Claim C8, exclusion map data: the embedded exclusion map has exactly
14 table-name keys, all distinct, each mapped to exactly the column
lists of the source; being a plain constant of the functional
embedding, no operation can modify it. -/
theorem claim_C8 :
    PROBLEMATIC_COLUMNS.length = 14 ∧
    (PROBLEMATIC_COLUMNS.map Prod.fst).Nodup ∧
    lookupExclusion (Json.str "Production.WorkOrderRouting") = some ["LocationID"] ∧
    lookupExclusion (Json.str "Production.ProductModel") = some ["CatalogDescription"] ∧
    lookupExclusion (Json.str "Purchasing.ProductVendor") =
      some ["LastReceiptCost", "LastReceiptDate"] ∧
    lookupExclusion (Json.str "Person.StateProvince") =
      some ["StateProvinceID", "IsOnlyStateProvinceFlag"] ∧
    lookupExclusion (Json.str "Sales.SalesOrderDetail") = some ["SalesOrderDetailID"] ∧
    lookupExclusion (Json.str "Production.ProductInventory") = some ["LocationID"] ∧
    lookupExclusion (Json.str "Production.ProductDescription") =
      some ["ProductDescriptionID"] ∧
    lookupExclusion (Json.str "Production.ProductModelProductDescriptionCulture") =
      some ["ProductDescriptionID"] ∧
    lookupExclusion (Json.str "Purchasing.PurchaseOrderDetail") =
      some ["PurchaseOrderDetailID"] ∧
    lookupExclusion (Json.str "Sales.SalesPerson") = some ["SalesLastYear"] ∧
    lookupExclusion (Json.str "Sales.SalesTerritory") =
      some ["SalesLastYear", "CostLastYear"] ∧
    lookupExclusion (Json.str "Purchasing.ShipMethod") =
      some ["ShipMethodID", "ShipBase", "ShipRate"] ∧
    lookupExclusion (Json.str "Purchasing.PurchaseOrderHeader") =
      some ["ShipMethodID", "ShipDate"] ∧
    lookupExclusion (Json.str "Sales.SalesOrderHeader") =
      some ["ShipDate", "ShipMethodID"] :=
  ⟨rfl, by decide, rfl, rfl, rfl, rfl, rfl, rfl, rfl, rfl, rfl, rfl, rfl, rfl, rfl, rfl⟩

/-- Claim C9, missing-name tolerance: a table entry without a
`TableName` field raises no error, matches no exclusion-map key (the
name defaults to the empty string) and is left unchanged with count 0;
a column entry without a `ColumnName` field, processed under any
exclusion set of the map, likewise raises no error, matches nothing
and is left unchanged with count 0. -/
theorem claim_C9 :
    (∀ fs : List (String × Json), jget? fs "TableName" = none →
      fixTable (Json.obj fs) = some (Json.obj fs, 0)) ∧
    (∀ (fs : List (String × Json)) (excl : List String) (v : Json),
      lookupExclusion v = some excl → jget? fs "ColumnName" = none →
      fixColumn excl (Json.obj fs) = some (Json.obj fs, 0)) := by
  constructor
  · intro fs h
    have hl : lookupExclusion ((jget? fs "TableName").getD (Json.str "")) = none := by
      rw [h]
      rfl
    simp [fixTable, hl]
  · intro fs excl v hl hc
    obtain ⟨p, hfind, hp2⟩ := Option.map_eq_some'.mp hl
    have hpmem : p ∈ PROBLEMATIC_COLUMNS := List.mem_of_find?_eq_some hfind
    have hall : ∀ q ∈ PROBLEMATIC_COLUMNS, memCols (Json.str "") q.2 = false := by decide
    have hmem : memCols ((jget? fs "ColumnName").getD (Json.str "")) excl = false := by
      rw [hc]
      rw [← hp2]
      exact hall p hpmem
    simp [fixColumn, hmem]

/-- Claim C10, monotone disabling: `fix_config` never sets an `Enabled`
field to `true`; every column entry whose `Enabled` is `true` after the
run already had `Enabled = true` before it. -/
theorem claim_C10 (doc doc' : Json) (n : Nat) (h : fix_config doc = some (doc', n)) :
    List.Forall₂ (fun t t' =>
      List.Forall₂ (fun c c' =>
        enabledOf c' = some (Json.bool true) → enabledOf c = some (Json.bool true))
        (columnsOf t) (columnsOf t'))
      (tablesOf doc) (tablesOf doc') := by
  obtain ⟨fs, hfs, hcase⟩ := fix_config_inv h
  subst hfs
  rcases hcase with ⟨hc, hd', _⟩ | ⟨ts, ts', hc, hft, hd'⟩ | ⟨other, hc, hna, _, hd', _⟩
  · subst hd'
    have hte : tablesOf (Json.obj fs) = [] := by simp [tablesOf, objFields, hc]
    rw [hte]
    exact List.Forall₂.nil
  · subst hd'
    have htin : tablesOf (Json.obj fs) = ts := by simp [tablesOf, objFields, hc]
    have htout : tablesOf (Json.obj (setField fs "Tables" (Json.arr ts'))) = ts' := by
      simp [tablesOf, objFields, jget?_setField_self]
    rw [htin, htout]
    refine (fixTables_forall2 hft).imp ?_
    intro t t' hex
    obtain ⟨kk, htfix⟩ := hex
    exact fixTable_mono htfix
  · subst hd'
    rw [tablesOf_nonarr hc hna]
    exact List.Forall₂.nil

/-! ### Witnesses -/

/-- Witness for C1 at `sampleDoc`: the matched column of the matched
table has `Enabled = false` in the output. -/
theorem claim_C1_witness :
    enabledOf (Json.obj [("ColumnName", Json.str "SalesOrderDetailID"),
      ("Enabled", Json.bool false)]) = some (Json.bool false) :=
  claim_C1 sampleDoc sampleDocFixed 1 (by rfl)
    (Json.obj [("TableName", Json.str "Sales.SalesOrderDetail"),
       ("Columns", Json.arr
          [Json.obj [("ColumnName", Json.str "SalesOrderDetailID"),
                     ("Enabled", Json.bool false)],
           Json.obj [("ColumnName", Json.str "OrderQty"),
                     ("Enabled", Json.bool true)]])])
    (List.Mem.head _)
    ["SalesOrderDetailID"] (by rfl)
    (Json.obj [("ColumnName", Json.str "SalesOrderDetailID"),
               ("Enabled", Json.bool false)])
    (List.Mem.head _)
    (by rfl)

/-- Witness for C2 at `sampleDoc`. -/
theorem claim_C2_witness :
    List.Forall₂ (fun t t' =>
      List.Forall₂ (fun c c' =>
        (∀ excl, lookupExclusion (tableNameOf t) = some excl →
          memCols (columnNameOf c) excl = false) →
        enabledOf c' = enabledOf c) (columnsOf t) (columnsOf t'))
      (tablesOf sampleDoc) (tablesOf sampleDocFixed) :=
  claim_C2 sampleDoc sampleDocFixed 1 (by rfl)

/-- Witness for C3 at `sampleDoc`. -/
theorem claim_C3_witness :
    (objFields sampleDocFixed).filter (fun p => p.1 != "Tables") =
      (objFields sampleDoc).filter (fun p => p.1 != "Tables") ∧
    List.Forall₂ (fun t t' =>
      (objFields t').filter (fun p => p.1 != "Columns") =
        (objFields t).filter (fun p => p.1 != "Columns") ∧
      List.Forall₂ (fun c c' =>
        (objFields c').filter (fun p => p.1 != "Enabled") =
          (objFields c).filter (fun p => p.1 != "Enabled"))
        (columnsOf t) (columnsOf t'))
      (tablesOf sampleDoc) (tablesOf sampleDocFixed) :=
  claim_C3 sampleDoc sampleDocFixed 1 (by rfl)

/-- Witness for C4 at `sampleDoc`: the returned count is the number of
exclusion-map matches. -/
theorem claim_C4_witness : 1 = specDisabledCount sampleDoc :=
  claim_C4 sampleDoc sampleDocFixed 1 (by rfl)

/-- Witness for C5 at a concrete parser and disk states. -/
theorem claim_C5_witness :
    fix_config_run (fun _ => none) (fun _ => "") none = RunResult.ioError none ∧
    fix_config_run (fun _ => none) (fun _ => "") (some "oops") =
      RunResult.parseError "oops" :=
  ⟨(claim_C5 (fun _ => none) (fun _ => "") none).1 rfl,
   (claim_C5 (fun _ => none) (fun _ => "") (some "oops")).2 "oops" rfl rfl⟩

/-- Witness for C6 at `sampleDoc`: rerunning on the fixed document
returns it unchanged. -/
theorem claim_C6_witness : fix_config sampleDocFixed = some (sampleDocFixed, 1) :=
  claim_C6 sampleDoc sampleDocFixed 1 (by rfl)

/-- Witness for C7: a document without `Tables` and a matched table
without `Columns`. -/
theorem claim_C7_witness :
    fix_config (Json.obj [("Name", Json.str "x")]) =
      some (Json.obj [("Name", Json.str "x")], 0) ∧
    fixTable (Json.obj [("TableName", Json.str "Sales.SalesPerson")]) =
      some (Json.obj [("TableName", Json.str "Sales.SalesPerson")], 0) :=
  ⟨claim_C7.1 [("Name", Json.str "x")] rfl,
   claim_C7.2 [("TableName", Json.str "Sales.SalesPerson")] ["SalesLastYear"] rfl rfl⟩

/-- Witness for C9: a table entry without `TableName` and a column
entry without `ColumnName`. -/
theorem claim_C9_witness :
    fixTable (Json.obj [("Columns", Json.arr [])]) =
      some (Json.obj [("Columns", Json.arr [])], 0) ∧
    fixColumn ["LocationID"] (Json.obj [("Enabled", Json.bool true)]) =
      some (Json.obj [("Enabled", Json.bool true)], 0) :=
  ⟨claim_C9.1 [("Columns", Json.arr [])] rfl,
   claim_C9.2 [("Enabled", Json.bool true)] ["LocationID"]
     (Json.str "Production.WorkOrderRouting") rfl rfl⟩

/-- Witness for C10 at `sampleDoc`. -/
theorem claim_C10_witness :
    List.Forall₂ (fun t t' =>
      List.Forall₂ (fun c c' =>
        enabledOf c' = some (Json.bool true) → enabledOf c = some (Json.bool true))
        (columnsOf t) (columnsOf t'))
      (tablesOf sampleDoc) (tablesOf sampleDocFixed) :=
  claim_C10 sampleDoc sampleDocFixed 1 (by rfl)
